import Mathlib

/-!
Verification development for the log-aggregation scripts
(`src/python/myscript.py` and `src/python/myscript_optimized.py`).

The shallow embedding below translates the scan-filter-aggregate-merge
engine of `myscript_optimized.py` into Lean.  A file is modelled as the
list of its CSV rows (each row a `List String` of fields); file-system
access is modelled as an association list from file names to row lists.
Python `datetime` values are modelled by the `PDateTime` structure,
`datetime.strptime(s, "%Y-%m-%d %H:%M:%S")` by `parse_datetime`, and
Python's chronological comparison of `datetime` values by lexicographic
comparison of the field tuple, exactly as CPython implements it.
Fallible Python code (a raised `ValueError` escaping the worker) is
modelled with `Except Unit`.
-/

set_option maxRecDepth 10000

instance {ε α : Type} [DecidableEq ε] [DecidableEq α] : DecidableEq (Except ε α) := fun
  | .error a, .error b =>
    if h : a = b then .isTrue (by rw [h])
    else .isFalse (by intro he; cases he; exact h rfl)
  | .error _, .ok _ => .isFalse (by intro h; cases h)
  | .ok _, .error _ => .isFalse (by intro h; cases h)
  | .ok a, .ok b =>
    if h : a = b then .isTrue (by rw [h])
    else .isFalse (by intro he; cases he; exact h rfl)

/-- Boolean lexicographic strict order on lists over a linear order.
This is CPython's tuple/list comparison: compare elementwise, first
difference decides; a strict prefix is smaller. -/
def lexLtB {α : Type} [LinearOrder α] : List α → List α → Bool
  | [], [] => false
  | [], _ :: _ => true
  | _ :: _, [] => false
  | a :: as, b :: bs => if a < b then true else if a = b then lexLtB as bs else false

/-- Python `datetime` restricted to the fields produced by the format
`%Y-%m-%d %H:%M:%S` (microsecond is always 0 and is omitted). -/
structure PDateTime where
  year : Nat
  month : Nat
  day : Nat
  hour : Nat
  minute : Nat
  second : Nat
deriving DecidableEq, Repr

/-- The comparison tuple of a datetime, mirroring CPython's `_cmp`
(which compares `(y, m, d, hh, mm, ss, us)` lexicographically). -/
def PDateTime.toList (d : PDateTime) : List Nat :=
  [d.year, d.month, d.day, d.hour, d.minute, d.second]

/-- Python `datetime.__lt__`: lexicographic on the field tuple. -/
def dtLtB (a b : PDateTime) : Bool := lexLtB a.toList b.toList

/-- Chronological `<=` on datetimes (`a <= b` iff `a < b` or `a = b`). -/
def dtLeB (a b : PDateTime) : Bool := dtLtB a b || decide (a = b)

/-- Gregorian leap-year test, as in Python's `calendar`/`datetime`. -/
def isLeap (y : Nat) : Bool := y % 4 = 0 && (y % 100 ≠ 0 || y % 400 = 0)

/-- Number of days in a month, as validated by the `datetime` constructor. -/
def daysInMonth (y m : Nat) : Nat :=
  if m = 2 then (if isLeap y then 29 else 28)
  else if m = 4 ∨ m = 6 ∨ m = 9 ∨ m = 11 then 30
  else 31

def digitVal (c : Char) : Nat := c.toNat - '0'.toNat

/-- Parse one or two leading digits (maximal munch, as the backtracking
regex of CPython `_strptime` effectively behaves when the field is
followed by a non-digit literal): a two-digit run must satisfy `twoOK`,
a single digit must satisfy `oneOK`. -/
def parseNum2 (twoOK oneOK : Nat → Bool) : List Char → Option (Nat × List Char)
  | c1 :: c2 :: rest =>
    if c1.isDigit then
      if c2.isDigit then
        let v := digitVal c1 * 10 + digitVal c2
        if twoOK v then some (v, rest) else none
      else
        let v := digitVal c1
        if oneOK v then some (v, c2 :: rest) else none
    else none
  | [c1] =>
    if c1.isDigit && oneOK (digitVal c1) then some (digitVal c1, []) else none
  | [] => none

def expectChar (c : Char) : List Char → Option (List Char)
  | c' :: rest => if c' = c then some rest else none
  | [] => none

/-- Python `datetime.strptime(s, "%Y-%m-%d %H:%M:%S")` (the `parse_datetime`
helper of both scripts): `%Y` is exactly four digits, `%m`/`%d`/`%H`/
`%M`/`%S` are one or two digits within the regex ranges of CPython's
`_strptime` (`%d` also accepts a space-padded single digit), the whole
string must be consumed, and the `datetime` constructor then validates
year >= 1, the day against the month length, and second <= 59.
Both the regex mismatch and the constructor `ValueError` surface as
`ValueError` in Python; both are `none` here. -/
def parse_datetime (s : String) : Option PDateTime := do
  let cs := s.data
  match cs with
  | y1 :: y2 :: y3 :: y4 :: rest =>
    if y1.isDigit && y2.isDigit && y3.isDigit && y4.isDigit then
      let year := ((digitVal y1 * 10 + digitVal y2) * 10 + digitVal y3) * 10 + digitVal y4
      let rest ← expectChar '-' rest
      let (month, rest) ← parseNum2 (fun v => 1 ≤ v && v ≤ 12) (fun v => 1 ≤ v) rest
      let rest ← expectChar '-' rest
      let (day, rest) ←
        match rest with
        | ' ' :: c :: rest' =>
          if c.isDigit && 1 ≤ digitVal c then some (digitVal c, rest') else none
        | _ => parseNum2 (fun v => 1 ≤ v && v ≤ 31) (fun v => 1 ≤ v) rest
      let rest ← expectChar ' ' rest
      let (hour, rest) ← parseNum2 (fun v => v ≤ 23) (fun _ => true) rest
      let rest ← expectChar ':' rest
      let (minute, rest) ← parseNum2 (fun v => v ≤ 59) (fun _ => true) rest
      let rest ← expectChar ':' rest
      let (second, rest) ← parseNum2 (fun v => v ≤ 59) (fun _ => true) rest
      if rest = [] && 1 ≤ year && day ≤ daysInMonth year month then
        some ⟨year, month, day, hour, minute, second⟩
      else none
    else none
  | _ => none

/-- Whitespace stripped by Python's `int(str)` conversion (ASCII part). -/
def isPySpace (c : Char) : Bool :=
  c = ' ' || c = '\t' || c = '\n' || c = '\r' || c = Char.ofNat 11 || c = Char.ofNat 12

/-- Digit run with optional single underscores between digits, as
accepted by Python's `int` literal grammar (`1_000`). The first
character must already be known to be a digit. -/
def parseDigits : List Char → Nat → Option Nat
  | [], acc => some acc
  | '_' :: c :: rest, acc =>
    if c.isDigit then parseDigits rest (acc * 10 + digitVal c) else none
  | c :: rest, acc =>
    if c.isDigit then parseDigits rest (acc * 10 + digitVal c) else none

/-- Python `int(s)` on a string field (ASCII scope): strip whitespace,
optional sign, then a digit run with optional single underscores.
`none` models the raised `ValueError`. -/
def parseInt (s : String) : Option Int :=
  let cs := (((s.data.dropWhile isPySpace).reverse.dropWhile isPySpace).reverse)
  let core : List Char → Option Nat := fun l =>
    match l with
    | c :: rest => if c.isDigit then parseDigits rest (digitVal c) else none
    | [] => none
  match cs with
  | '-' :: rest => (core rest).map (fun n => -(n : Int))
  | '+' :: rest => (core rest).map (fun n => (n : Int))
  | l => (core l).map (fun n => (n : Int))

def pad2 (n : Nat) : String := if n < 10 then "0" ++ toString n else toString n

def pad4 (n : Nat) : String :=
  if n < 10 then "000" ++ toString n
  else if n < 100 then "00" ++ toString n
  else if n < 1000 then "0" ++ toString n
  else toString n

/-- Formatting `dt.strftime("%Y-%m-%d %H:%M:%S")` as used for the period key. -/
def format_datetime (d : PDateTime) : String :=
  pad4 d.year ++ "-" ++ pad2 d.month ++ "-" ++ pad2 d.day ++ " " ++
    pad2 d.hour ++ ":" ++ pad2 d.minute ++ ":" ++ pad2 d.second

/-- The bucketing function `get_period_start(timestamp, granularity)`: rounds a timestamp down
to its 30-minute or daily bucket; any other granularity string raises
`ValueError` (modelled as `.error ()`). -/
def get_period_start (ts : PDateTime) (granularity : String) : Except Unit PDateTime :=
  if granularity = "30m" then
    .ok { ts with minute := ts.minute / 30 * 30, second := 0 }
  else if granularity = "1day" then
    .ok { ts with hour := 0, minute := 0, second := 0 }
  else
    .error ()

/-- A calendar date (`datetime.date`). -/
structure PDate where
  year : Nat
  month : Nat
  day : Nat
deriving DecidableEq, Repr

def PDateTime.dateOf (d : PDateTime) : PDate := ⟨d.year, d.month, d.day⟩

/-- Python `current + timedelta(days=1)` on dates. -/
def nextDate (d : PDate) : PDate :=
  if d.day + 1 ≤ daysInMonth d.year d.month then ⟨d.year, d.month, d.day + 1⟩
  else if d.month + 1 ≤ 12 then ⟨d.year, d.month + 1, 1⟩
  else ⟨d.year + 1, 1, 1⟩

/-- Formatting `date.strftime("%Y-%m-%d")`. -/
def format_date (d : PDate) : String :=
  pad4 d.year ++ "-" ++ pad2 d.month ++ "-" ++ pad2 d.day

/-- Lexicographic `<=` on dates (Python `date` comparison). -/
def dateLeB (a b : PDate) : Bool :=
  lexLtB [a.year, a.month, a.day] [b.year, b.month, b.day] || decide (a = b)

/-- Strictly monotone code of a valid date (month <= 12, 1 <= day <= 31),
used only as a fuel bound for the date-range loop below. -/
def dateCode (d : PDate) : Nat := d.year * 403 + d.month * 31 + d.day

def get_date_range_loop (endD : PDate) : PDate → Nat → List String
  | _, 0 => []
  | c, fuel + 1 =>
    if dateLeB c endD then format_date c :: get_date_range_loop endD (nextDate c) fuel
    else []

/-- The planner helper `get_date_range(from_dt, to_dt)`: the date strings from
`from_dt.date()` to `to_dt.date()` inclusive.  The Python `while`
loop advances by one day per iteration; since `nextDate` strictly
increases `dateCode` on every date the loop visits, the explicit fuel
`dateCode end + 1 - dateCode start` is an upper bound on the number of
iterations for the valid dates produced by `parse_datetime`, so the
fuelled loop computes exactly the Python loop on such inputs. -/
def get_date_range (from_dt to_dt : PDateTime) : List String :=
  let s := from_dt.dateOf
  let e := to_dt.dateOf
  get_date_range_loop e s (dateCode e + 1 - dateCode s)



/-- The fixed array of 9 metric values of one record
(`metrics = [int(row[i]) for i in range(3, 12)]`). -/
structure MetricVector where
  m1 : Int
  m2 : Int
  m3 : Int
  m4 : Int
  m5 : Int
  m6 : Int
  m7 : Int
  m8 : Int
  m9 : Int
deriving DecidableEq, Repr

/-- Element-wise addition of metric vectors
(`local_aggregated[key][i] += metrics[i]` for `i in range(9)`). -/
def MetricVector.add (a b : MetricVector) : MetricVector :=
  ⟨a.m1 + b.m1, a.m2 + b.m2, a.m3 + b.m3, a.m4 + b.m4, a.m5 + b.m5,
   a.m6 + b.m6, a.m7 + b.m7, a.m8 + b.m8, a.m9 + b.m9⟩

/-- The all-zero vector `[0] * 9`, the accumulator identity. -/
def MetricVector.zero : MetricVector := ⟨0, 0, 0, 0, 0, 0, 0, 0, 0⟩

instance : Add MetricVector := ⟨MetricVector.add⟩

instance : Zero MetricVector := ⟨MetricVector.zero⟩

theorem MetricVector.add_def (a b : MetricVector) :
    a + b = ⟨a.m1 + b.m1, a.m2 + b.m2, a.m3 + b.m3, a.m4 + b.m4, a.m5 + b.m5,
      a.m6 + b.m6, a.m7 + b.m7, a.m8 + b.m8, a.m9 + b.m9⟩ := rfl

theorem MetricVector.zero_def :
    (0 : MetricVector) = ⟨0, 0, 0, 0, 0, 0, 0, 0, 0⟩ := rfl

instance : AddCommMonoid MetricVector where
  add_assoc a b c := by
    simp only [MetricVector.add_def, MetricVector.mk.injEq]
    omega
  zero_add a := by
    cases a
    simp only [MetricVector.zero_def, MetricVector.add_def, MetricVector.mk.injEq]
    omega
  add_zero a := by
    cases a
    simp only [MetricVector.zero_def, MetricVector.add_def, MetricVector.mk.injEq]
    omega
  add_comm a b := by
    simp only [MetricVector.add_def, MetricVector.mk.injEq]
    omega
  nsmul := nsmulRec

/-- One raw CSV line, already split into fields by `csv.reader`. -/
abbrev Row : Type := List String

/-- Aggregation key: `(period_str, *dim_values)` as a list of strings. -/
abbrev Key : Type := List String

/-- The aggregation table: a Python `dict` keyed by tuples, in insertion
order (`defaultdict(lambda: [0] * 9)`).  Keys are unique by construction. -/
abbrev Table : Type := List (Key × MetricVector)

/-- Association-list lookup, the semantics of `key in dict` / `dict[key]`. -/
def lookupEntry : Table → Key → Option MetricVector
  | [], _ => none
  | (k', v) :: rest, k => if k' = k then some v else lookupEntry rest k

/-- Reading the `dict` with the defaultdict zero default: an absent key counts
as the all-zero 9-vector. -/
def lookupZ (t : Table) (k : Key) : MetricVector := (lookupEntry t k).getD 0

/-- The accumulation `local_aggregated[key][i] += metrics[i]`: add `m` to the entry of
`k`, creating it as zero first if absent (appended in insertion order,
as a Python dict does). -/
def tableAdd : Table → Key → MetricVector → Table
  | [], k, m => [(k, m)]
  | (k', v) :: rest, k, m =>
    if k' = k then (k', v + m) :: rest else (k', v) :: tableAdd rest k m

/-- Fold a list of `(key, metrics)` pairs into a table, starting from `t`. -/
def buildOn (t : Table) (recs : List (Key × MetricVector)) : Table :=
  recs.foldl (fun acc km => tableAdd acc km.1 km.2) t

/-- The merge loop of `process_file_parallel` / `aggregate_data_parallel`:
`for key, metrics in p.items(): for i in range(9): combined[key][i] += metrics[i]`. -/
def mergeInto (combined p : Table) : Table := buildOn combined p

/-- The read-only configuration shared by all workers. -/
structure Config where
  from_dt : PDateTime
  to_dt : PDateTime
  granularity : String
  dimensions : List String
  user_filter : Option (List String)
  app_filter : Option (List String)

/-- Filter materialisation `set(user_filter) if user_filter else None`: an empty or absent
filter collection becomes `None` (no filtering); a non-empty list
becomes a membership set (modelled by the list itself). -/
def mkFilterSet : Option (List String) → Option (List String)
  | none => none
  | some [] => none
  | some l => some l

/-- The membership filter `if user_set and user not in user_set: continue`. -/
def filterRejects (fset : Option (List String)) (x : String) : Bool :=
  match fset with
  | some s => decide (x ∉ s)
  | none => false

/-- The window test `if row_dt < from_dt or row_dt >= to_dt: continue` — the time-window
rejection test (`>=` on a total order is the negation of `<`). -/
def timeReject (from_dt to_dt row_dt : PDateTime) : Bool :=
  dtLtB row_dt from_dt || !dtLtB row_dt to_dt

/-- Metric parsing `[int(row[i]) for i in range(3, 12)]`; `none` models the propagated
`ValueError` on the first malformed metric field. -/
def parse_metrics (row : Row) : Option MetricVector := do
  let a ← parseInt (row.getD 3 "")
  let b ← parseInt (row.getD 4 "")
  let c ← parseInt (row.getD 5 "")
  let d ← parseInt (row.getD 6 "")
  let e ← parseInt (row.getD 7 "")
  let f ← parseInt (row.getD 8 "")
  let g ← parseInt (row.getD 9 "")
  let h ← parseInt (row.getD 10 "")
  let i ← parseInt (row.getD 11 "")
  some ⟨a, b, c, d, e, f, g, h, i⟩

/-- The `dim_values` construction: `user` before `app`, each included iff
selected in `dimensions`. -/
def dimValues (dimensions : List String) (user app : String) : List String :=
  (if "user" ∈ dimensions then [user] else []) ++
    (if "app" ∈ dimensions then [app] else [])

/-- The per-row body of the scan loop of `process_file_chunk`
(lines 175-215 of `myscript_optimized.py`, identical in substance to
`read_log_file`/`parse_row` of `myscript.py`): returns `.ok none` when
the row is silently dropped, `.ok (some (key, metrics))` when the row is
accepted, and `.error ()` when processing the row raises a `ValueError`
that propagates out of the worker (invalid granularity at
`get_period_start`, or a malformed metric field at `int(row[i])`). -/
def rowStep (cfg : Config) (row : Row) : Except Unit (Option (Key × MetricVector)) :=
  let user_set := mkFilterSet cfg.user_filter
  let app_set := mkFilterSet cfg.app_filter
  if row.length < 12 then .ok none
  else
    let timestamp_str := row.getD 0 ""
    let user := row.getD 1 ""
    let app := row.getD 2 ""
    if filterRejects user_set user then .ok none
    else if filterRejects app_set app then .ok none
    else
      match parse_datetime timestamp_str with
      | none => .ok none
      | some row_dt =>
        if timeReject cfg.from_dt cfg.to_dt row_dt then .ok none
        else
          match get_period_start row_dt cfg.granularity with
          | .error e => .error e
          | .ok period_start =>
            let period_str := format_datetime period_start
            let key : Key := period_str :: dimValues cfg.dimensions user app
            match parse_metrics row with
            | none => .error ()
            | some metrics => .ok (some (key, metrics))

/-- The scan loop of `process_file_chunk` over a list of rows, carrying
the private table `local_aggregated` and the `rows_processed` counter. -/
def processChunkAux (cfg : Config) : List Row → Table → Nat → Except Unit (Table × Nat)
  | [], t, n => .ok (t, n)
  | r :: rs, t, n =>
    match rowStep cfg r with
    | .error e => .error e
    | .ok none => processChunkAux cfg rs t n
    | .ok (some (k, m)) => processChunkAux cfg rs (tableAdd t k m) (n + 1)

/-- The worker `process_file_chunk(filepath, ..., chunk_start, chunk_size)` on the
rows of an existing file: skip `chunk_start` rows, then consume at most
`chunk_size` rows (`chunk_size` of `None` — or `0`, which is falsy in
`if chunk_size and rows_read >= chunk_size` — means no limit). -/
def process_file_chunk (cfg : Config) (rows : List Row) (chunk_start : Nat)
    (chunk_size : Option Nat) : Except Unit (Table × Nat) :=
  let sliced :=
    match chunk_size with
    | none => rows.drop chunk_start
    | some cs => if cs = 0 then rows.drop chunk_start else (rows.drop chunk_start).take cs
  processChunkAux cfg sliced [] 0

/-- The planner arithmetic `chunk_size = (line_count + num_threads - 1) // num_threads`:
the planner's per-chunk line budget, `ceil(L / N)`. -/
def chunkSize (L N : Nat) : Nat := (L + N - 1) / N

/-- The planner offset `chunk_start = i * chunk_size`: first line of chunk `i`. -/
def chunkStart (L N i : Nat) : Nat := i * chunkSize L N

/-- Number of lines chunk `i` actually processes out of an `L`-line
file: its budget `chunkSize L N`, truncated at end of file. -/
def chunkLen (L N i : Nat) : Nat := min (chunkSize L N) (L - chunkStart L N i)

/-- The sequential fold modelling the merge loop of
`process_file_parallel`: process each chunk and fold its private table
into `combined` (`as_completed` order is arbitrary; order-independence
is the content of claim C1). -/
def mergeChunks (cfg : Config) (rows : List Row) (cs : Nat) :
    List Nat → Table → Nat → Except Unit (Table × Nat)
  | [], t, n => .ok (t, n)
  | i :: is, t, n =>
    match process_file_chunk cfg rows (i * cs) (some cs) with
    | .error e => .error e
    | .ok (pt, pn) => mergeChunks cfg rows cs is (mergeInto t pt) (n + pn)

/-- The intra-file driver `process_file_parallel`: small files (or one thread) are processed
as a single chunk; otherwise the file is split into `num_threads`
chunks of `chunkSize` lines each and the partial tables are merged. -/
def process_file_parallel (cfg : Config) (rows : List Row) (num_threads : Nat) :
    Except Unit (Table × Nat) :=
  let line_count := rows.length
  if line_count = 0 then .ok ([], 0)
  else if line_count < 100000 ∨ num_threads = 1 then
    process_file_chunk cfg rows 0 none
  else
    mergeChunks cfg rows (chunkSize line_count num_threads)
      (List.range num_threads) [] 0

/-- The file system: association list from file name to the file's rows;
`os.path.exists` + reading is `lookupFile`. -/
abbrev FileSystem : Type := List (String × List Row)

def lookupFile : FileSystem → String → Option (List Row)
  | [], _ => none
  | (name, rows) :: rest, n => if name = n then some rows else lookupFile rest n

/-- The per-date loop of `aggregate_data_parallel`: skip dates whose
file `<date>.log.csv` does not exist; process each existing file as one
chunk and fold `(combined, total_rows, files_processed)`. -/
def aggAux (cfg : Config) (fs : FileSystem) :
    List String → Table → Nat → Nat → Except Unit (Table × Nat × Nat)
  | [], t, r, f => .ok (t, r, f)
  | d :: ds, t, r, f =>
    match lookupFile fs (d ++ ".log.csv") with
    | none => aggAux cfg fs ds t r f
    | some rows =>
      match process_file_chunk cfg rows 0 none with
      | .error e => .error e
      | .ok (pt, pr) => aggAux cfg fs ds (mergeInto t pt) (r + pr) (f + 1)

/-- The engine entry point `aggregate_data_parallel(from_dt, to_dt, granularity, dimensions,
user_filter, app_filter, num_threads)`, returning
`(combined, total_rows, files_processed)`.  Before any work is
submitted the engine creates
`ThreadPoolExecutor(max_workers=min(num_threads, len(date_files)))`
(line 274): when `get_date_range` is empty — `from_dt.date()` after
`to_dt.date()` — that minimum is 0 regardless of the configured thread
count and the constructor raises
`ValueError("max_workers must be greater than 0")`, aborting the
aggregation; this is the `.error ()` branch below.  For a nonempty date
range the spec's positive `workerCount` makes the minimum positive, the
workers run per existing file, and a worker exception propagates and
aborts the aggregation. -/
def aggregate_data_parallel (fs : FileSystem) (cfg : Config) :
    Except Unit (Table × Nat × Nat) :=
  if get_date_range cfg.from_dt cfg.to_dt = [] then .error ()
  else aggAux cfg fs (get_date_range cfg.from_dt cfg.to_dt) [] 0 0

/-- The header constant METRIC_COLUMNS, the nine metric column names. -/
def METRIC_COLUMNS : List String :=
  ["metric_1", "metric_2", "metric_3", "metric_4", "metric_5",
   "metric_6", "metric_7", "metric_8", "metric_9"]

/-- The 9 metric values of a row as emitted by `csv.writer` (Python
`str` of each int). -/
def metricStrings (m : MetricVector) : List String :=
  [toString m.m1, toString m.m2, toString m.m3, toString m.m4, toString m.m5,
   toString m.m6, toString m.m7, toString m.m8, toString m.m9]

/-- The sort order of `sorted(aggregated.keys())`: Python tuple comparison is
lexicographic with string comparison (code points) per component. -/
def keyLe (a b : Key) : Prop := (lexLtB a b || decide (a = b)) = true

instance : DecidableRel keyLe := fun a b => by unfold keyLe; infer_instance

/-- The header row of `write_results`. -/
def resultHeader (dimensions : List String) : List String :=
  "timestamp" ::
    ((if "user" ∈ dimensions then ["user"] else []) ++
      (if "app" ∈ dimensions then ["app"] else []) ++ METRIC_COLUMNS)

/-- The emitter `write_results(aggregated, dimensions, ...)` as the emitted row
sequence: header, then for each key in sorted ascending order the key
fields followed by the 9 metric values. -/
def write_results (t : Table) (dimensions : List String) : List (List String) :=
  let sorted_keys := List.insertionSort keyLe (t.map Prod.fst)
  resultHeader dimensions ::
    sorted_keys.map (fun k => k ++ metricStrings (lookupZ t k))

/-- Whether a worker computation raised (`ValueError` escaping). -/
def isErrB {α : Type} : Except Unit α → Bool
  | .error _ => true
  | .ok _ => false

/-- The accepted record of a row, if any (none when the row is dropped
or raises). -/
def accRec (cfg : Config) (r : Row) : Option (Key × MetricVector) :=
  match rowStep cfg r with
  | .ok o => o
  | .error _ => none

/-- The accepted `(key, metrics)` records of a row list, in order. -/
def acceptedRecs (cfg : Config) (rows : List Row) : List (Key × MetricVector) :=
  rows.filterMap (accRec cfg)

/-- Sum of the metric vectors of the records with key `k`. -/
def keySum : List (Key × MetricVector) → Key → MetricVector
  | [], _ => 0
  | km :: rest, k => (if km.1 = k then km.2 else 0) + keySum rest k

/-- The pre-metric checks of the scan loop in their source order:
field count, user filter, app filter, timestamp parse, time window.
A row passing all of them is counted in `rows_processed`. -/
def passesFilters (cfg : Config) (row : Row) : Bool :=
  if row.length < 12 then false
  else if filterRejects (mkFilterSet cfg.user_filter) (row.getD 1 "") then false
  else if filterRejects (mkFilterSet cfg.app_filter) (row.getD 2 "") then false
  else
    match parse_datetime (row.getD 0 "") with
    | none => false
    | some row_dt => !timeReject cfg.from_dt cfg.to_dt row_dt

/-- The private table a fatal-error-free worker builds from its rows. -/
def chunkTable (cfg : Config) (rows : List Row) : Table :=
  buildOn [] (acceptedRecs cfg rows)

/-- Key uniqueness, the `dict` invariant of every table here. -/
def keysNodup (t : Table) : Prop := (t.map Prod.fst).Nodup

/-- The contents of the files that exist for the queried date range, in
date order. -/
def existingFiles (fs : FileSystem) (cfg : Config) : List (List Row) :=
  (get_date_range cfg.from_dt cfg.to_dt).filterMap
    (fun d => lookupFile fs (d ++ ".log.csv"))

/-- The reference aggregation over a list of file contents only:
fold each file's private table into the combined table in order. -/
def mergeExisting (cfg : Config) (files : List (List Row)) : Table :=
  files.foldl (fun acc rows => mergeInto acc (chunkTable cfg rows)) []

theorem lexLtB_iff_lex {α : Type} [LinearOrder α] :
    ∀ a b : List α, lexLtB a b = true ↔ List.Lex (· < ·) a b := by
  intro a
  induction a with
  | nil =>
    intro b
    cases b with
    | nil => simp [lexLtB]
    | cons y ys => simp [lexLtB, List.Lex.nil]
  | cons x xs ih =>
    intro b
    cases b with
    | nil => simp [lexLtB, List.Lex.not_nil_right]
    | cons y ys =>
      simp only [lexLtB]
      split_ifs with h1 h2
      · simp only [true_iff]
        exact List.Lex.rel h1
      · subst h2
        rw [ih ys]
        constructor
        · exact fun h => List.Lex.cons h
        · intro h
          cases h with
          | cons h => exact h
          | rel h => exact absurd h h1
      · simp only [false_iff]
        intro h
        cases h with
        | cons h => exact h2 rfl
        | rel h => exact h1 h

theorem lexLtB_irrefl {α : Type} [LinearOrder α] (a : List α) : lexLtB a a = false := by
  rw [Bool.eq_false_iff]
  intro h
  exact irrefl_of (List.Lex (· < ·)) a ((lexLtB_iff_lex a a).mp h)

theorem lexLtB_asymm {α : Type} [LinearOrder α] {a b : List α}
    (h : lexLtB a b = true) : lexLtB b a = false := by
  rw [Bool.eq_false_iff]
  intro h'
  exact asymm_of (List.Lex (· < ·)) ((lexLtB_iff_lex a b).mp h) ((lexLtB_iff_lex b a).mp h')

theorem lexLtB_trans {α : Type} [LinearOrder α] {a b c : List α}
    (h1 : lexLtB a b = true) (h2 : lexLtB b c = true) : lexLtB a c = true :=
  (lexLtB_iff_lex a c).mpr
    (trans_of (List.Lex (· < ·)) ((lexLtB_iff_lex a b).mp h1) ((lexLtB_iff_lex b c).mp h2))

theorem lexLtB_total {α : Type} [LinearOrder α] {a b : List α}
    (h1 : lexLtB a b = false) (h2 : lexLtB b a = false) : a = b := by
  rcases lt_trichotomy a b with h | h | h
  · have h3 : List.Lex (· < ·) a b := h
    rw [← lexLtB_iff_lex] at h3
    rw [h3] at h1
    cases h1
  · exact h
  · have h3 : List.Lex (· < ·) b a := h
    rw [← lexLtB_iff_lex] at h3
    rw [h3] at h2
    cases h2

theorem lookupZ_nil (k : Key) : lookupZ [] k = 0 := rfl

theorem lookupZ_tableAdd (t : Table) (k : Key) (m : MetricVector) (k' : Key) :
    lookupZ (tableAdd t k m) k' = lookupZ t k' + (if k = k' then m else 0) := by
  induction t with
  | nil =>
    simp only [tableAdd, lookupZ, lookupEntry]
    by_cases h : k = k'
    · rw [if_pos h, if_pos h]
      simp
    · rw [if_neg h, if_neg h]
      simp
  | cons p rest ih =>
    obtain ⟨k1, v⟩ := p
    simp only [tableAdd]
    by_cases hk : k1 = k
    · rw [if_pos hk]
      subst hk
      simp only [lookupZ, lookupEntry]
      by_cases hk' : k1 = k'
      · rw [if_pos hk', if_pos hk', if_pos hk']
        simp
      · rw [if_neg hk', if_neg hk', if_neg hk']
        simp
    · rw [if_neg hk]
      simp only [lookupZ, lookupEntry] at ih ⊢
      by_cases hk1 : k1 = k'
      · rw [if_pos hk1, if_pos hk1]
        have : ¬k = k' := fun h => hk (hk1.trans h.symm)
        rw [if_neg this]
        simp
      · rw [if_neg hk1, if_neg hk1]
        exact ih

theorem mem_keys_tableAdd (t : Table) (k : Key) (m : MetricVector) (k' : Key) :
    k' ∈ (tableAdd t k m).map Prod.fst ↔ k' ∈ t.map Prod.fst ∨ k' = k := by
  induction t with
  | nil => simp [tableAdd]
  | cons p rest ih =>
    obtain ⟨k1, v⟩ := p
    simp only [tableAdd]
    split_ifs with h
    · subst h
      simp only [List.map_cons, List.mem_cons]
      constructor
      · intro h2
        rcases h2 with h2 | h2
        · exact Or.inr h2
        · exact Or.inl (Or.inr h2)
      · intro h2
        rcases h2 with (h2 | h2) | h2
        · exact Or.inl h2
        · exact Or.inr h2
        · exact Or.inl h2
    · simp only [List.map_cons, List.mem_cons] at ih ⊢
      rw [ih]
      tauto

theorem keysNodup_tableAdd (t : Table) (k : Key) (m : MetricVector)
    (h : keysNodup t) : keysNodup (tableAdd t k m) := by
  induction t with
  | nil => simp [tableAdd, keysNodup]
  | cons p rest ih =>
    obtain ⟨k1, v⟩ := p
    simp only [keysNodup, List.map_cons, List.nodup_cons] at h
    simp only [tableAdd]
    split_ifs with h2
    · simp only [keysNodup, List.map_cons, List.nodup_cons]
      exact h
    · simp only [keysNodup, List.map_cons, List.nodup_cons]
      refine ⟨?_, ih h.2⟩
      rw [mem_keys_tableAdd]
      rintro (h3 | h3)
      · exact h.1 h3
      · exact h2 h3

theorem lookupEntry_isSome_iff (t : Table) (k : Key) :
    (lookupEntry t k).isSome = true ↔ k ∈ t.map Prod.fst := by
  induction t with
  | nil => simp [lookupEntry]
  | cons p rest ih =>
    obtain ⟨k1, v⟩ := p
    simp only [lookupEntry, List.map_cons, List.mem_cons]
    split_ifs with h
    · subst h
      simp
    · rw [ih]
      constructor
      · exact Or.inr
      · rintro (h2 | h2)
        · exact absurd h2.symm h
        · exact h2

theorem keySum_nil (k : Key) : keySum [] k = 0 := rfl

theorem keySum_append (a b : List (Key × MetricVector)) (k : Key) :
    keySum (a ++ b) k = keySum a k + keySum b k := by
  induction a with
  | nil => simp [keySum]
  | cons km rest ih =>
    simp only [List.cons_append, keySum, List.append_eq]
    rw [ih, add_assoc]

theorem keySum_eq_zero_of_not_mem {t : Table} {k : Key}
    (h : k ∉ t.map Prod.fst) : keySum t k = 0 := by
  induction t with
  | nil => rfl
  | cons p rest ih =>
    simp only [List.map_cons, List.mem_cons, not_or] at h
    simp only [keySum]
    rw [if_neg (fun h2 => h.1 h2.symm), ih h.2, add_zero]

theorem keySum_eq_lookupZ {t : Table} (h : keysNodup t) (k : Key) :
    keySum t k = lookupZ t k := by
  induction t with
  | nil => rfl
  | cons p rest ih =>
    obtain ⟨k1, v⟩ := p
    simp only [keysNodup, List.map_cons, List.nodup_cons] at h
    simp only [keySum, lookupZ, lookupEntry]
    split_ifs with h2
    · subst h2
      rw [keySum_eq_zero_of_not_mem h.1, add_zero]
      simp
    · rw [zero_add]
      exact ih h.2

theorem lookupZ_buildOn (recs : List (Key × MetricVector)) (t : Table) (k : Key) :
    lookupZ (buildOn t recs) k = lookupZ t k + keySum recs k := by
  induction recs generalizing t with
  | nil => simp [buildOn, keySum]
  | cons km rest ih =>
    simp only [buildOn, List.foldl_cons] at ih ⊢
    rw [ih, lookupZ_tableAdd, keySum, add_assoc]

theorem mem_keys_buildOn (recs : List (Key × MetricVector)) (t : Table) (k : Key) :
    k ∈ (buildOn t recs).map Prod.fst ↔
      k ∈ t.map Prod.fst ∨ ∃ km ∈ recs, km.1 = k := by
  induction recs generalizing t with
  | nil => simp [buildOn]
  | cons km rest ih =>
    simp only [buildOn, List.foldl_cons] at ih ⊢
    rw [ih, mem_keys_tableAdd]
    simp only [List.mem_cons]
    constructor
    · rintro ((h | h) | ⟨km2, h2, h3⟩)
      · exact Or.inl h
      · exact Or.inr ⟨km, Or.inl rfl, h.symm⟩
      · exact Or.inr ⟨km2, Or.inr h2, h3⟩
    · rintro (h | ⟨km2, h2 | h2, h3⟩)
      · exact Or.inl (Or.inl h)
      · subst h2
        exact Or.inl (Or.inr h3.symm)
      · exact Or.inr ⟨km2, h2, h3⟩

theorem keysNodup_buildOn (recs : List (Key × MetricVector)) (t : Table)
    (h : keysNodup t) : keysNodup (buildOn t recs) := by
  induction recs generalizing t with
  | nil => exact h
  | cons km rest ih =>
    simp only [buildOn, List.foldl_cons] at ih ⊢
    exact ih _ (keysNodup_tableAdd _ _ _ h)

theorem processChunkAux_ok (cfg : Config) (rows : List Row) (t : Table) (n : Nat)
    (h : ∀ r ∈ rows, isErrB (rowStep cfg r) = false) :
    processChunkAux cfg rows t n =
      .ok (buildOn t (acceptedRecs cfg rows), n + (acceptedRecs cfg rows).length) := by
  induction rows generalizing t n with
  | nil => simp [processChunkAux, acceptedRecs, buildOn]
  | cons r rs ih =>
    have hr := h r (List.mem_cons_self r rs)
    have hrs : ∀ r' ∈ rs, isErrB (rowStep cfg r') = false :=
      fun r' h' => h r' (List.mem_cons_of_mem r h')
    simp only [processChunkAux]
    cases hstep : rowStep cfg r with
    | error e => rw [hstep] at hr; cases hr
    | ok o =>
      cases o with
      | none =>
        rw [ih _ _ hrs]
        simp only [acceptedRecs, List.filterMap_cons, accRec, hstep]
      | some km =>
        obtain ⟨k, m⟩ := km
        show processChunkAux cfg rs (tableAdd t k m) (n + 1) =
          Except.ok (buildOn t (acceptedRecs cfg (r :: rs)),
            n + (acceptedRecs cfg (r :: rs)).length)
        rw [ih (tableAdd t k m) (n + 1) hrs]
        simp only [acceptedRecs, List.filterMap_cons, accRec, hstep, buildOn,
          List.foldl_cons, List.length_cons]
        have hn : n + 1 + (List.filterMap (accRec cfg) rs).length =
            n + ((List.filterMap (accRec cfg) rs).length + 1) := by omega
        rw [hn]

theorem processChunkAux_noFatal (cfg : Config) (rows : List Row) (t : Table) (n : Nat)
    (res : Table × Nat) (h : processChunkAux cfg rows t n = .ok res) :
    ∀ r ∈ rows, isErrB (rowStep cfg r) = false := by
  induction rows generalizing t n with
  | nil => intro r hr; cases hr
  | cons r rs ih =>
    intro r' hr'
    simp only [processChunkAux] at h
    cases hstep : rowStep cfg r with
    | error e =>
      rw [hstep] at h
      cases h
    | ok o =>
      rw [hstep] at h
      rcases List.mem_cons.mp hr' with h2 | h2
      · subst h2
        rw [hstep]
        rfl
      · cases o with
        | none => exact ih _ _ h r' h2
        | some km => exact ih _ _ h r' h2

theorem process_file_chunk_whole (cfg : Config) (rows : List Row) :
    process_file_chunk cfg rows 0 none = processChunkAux cfg rows [] 0 := rfl

theorem process_file_chunk_ok (cfg : Config) (rows : List Row)
    (h : ∀ r ∈ rows, isErrB (rowStep cfg r) = false) :
    process_file_chunk cfg rows 0 none =
      .ok (chunkTable cfg rows, (acceptedRecs cfg rows).length) := by
  rw [process_file_chunk_whole, processChunkAux_ok cfg rows [] 0 h, chunkTable]
  simp

theorem lookupZ_chunkTable (cfg : Config) (rows : List Row) (k : Key) :
    lookupZ (chunkTable cfg rows) k = keySum (acceptedRecs cfg rows) k := by
  rw [chunkTable, lookupZ_buildOn, lookupZ_nil, zero_add]

theorem keysNodup_chunkTable (cfg : Config) (rows : List Row) :
    keysNodup (chunkTable cfg rows) :=
  keysNodup_buildOn _ _ (by simp [keysNodup])

theorem acceptedRecs_append (cfg : Config) (xs ys : List Row) :
    acceptedRecs cfg (xs ++ ys) = acceptedRecs cfg xs ++ acceptedRecs cfg ys := by
  simp [acceptedRecs]

theorem lookupZ_mergeInto (c p : Table) (k : Key) :
    lookupZ (mergeInto c p) k = lookupZ c k + keySum p k :=
  lookupZ_buildOn p c k

theorem lookupZ_foldl_mergeInto (ts : List Table) (init : Table) (k : Key) :
    lookupZ (ts.foldl mergeInto init) k =
      lookupZ init k + (ts.map (fun p => keySum p k)).sum := by
  induction ts generalizing init with
  | nil => simp
  | cons p rest ih =>
    simp only [List.foldl_cons, List.map_cons, List.sum_cons]
    rw [ih, lookupZ_mergeInto, add_assoc]

theorem acceptedRecs_flatten (cfg : Config) (pieces : List (List Row)) :
    acceptedRecs cfg pieces.flatten = (pieces.map (acceptedRecs cfg)).flatten := by
  induction pieces with
  | nil => rfl
  | cons p rest ih =>
    simp only [List.flatten_cons, List.map_cons, acceptedRecs_append, ih]

theorem keySum_acceptedRecs_flatten (cfg : Config) (pieces : List (List Row)) (k : Key) :
    (pieces.map (fun p => keySum (acceptedRecs cfg p) k)).sum =
      keySum (acceptedRecs cfg pieces.flatten) k := by
  induction pieces with
  | nil => simp [keySum]
  | cons p rest ih =>
    simp only [List.map_cons, List.sum_cons, List.flatten_cons, acceptedRecs_append,
      keySum_append, ih]

theorem join_chunks {α : Type} (cs : Nat) :
    ∀ (N : Nat) (xs : List α), xs.length ≤ N * cs →
      ((List.range N).map (fun i => (xs.drop (i * cs)).take cs)).flatten = xs := by
  intro N
  induction N with
  | zero =>
    intro xs h
    simp only [Nat.zero_mul, Nat.le_zero] at h
    simp [List.eq_nil_of_length_eq_zero h]
  | succ N ih =>
    intro xs h
    rw [List.range_succ_eq_map]
    simp only [List.map_cons, List.map_map, List.flatten_cons, Nat.zero_mul,
      List.drop_zero]
    have hmap : (List.range N).map ((fun i => (xs.drop (i * cs)).take cs) ∘ Nat.succ) =
        (List.range N).map (fun i => ((xs.drop cs).drop (i * cs)).take cs) := by
      apply List.map_congr_left
      intro i _
      simp only [Function.comp_apply, Nat.succ_eq_add_one]
      rw [List.drop_drop]
      have harith : (i + 1) * cs = cs + i * cs := by ring
      rw [harith]
    rw [hmap, ih (xs.drop cs) (by
        have hx : (N + 1) * cs = N * cs + cs := by ring
        simp only [List.length_drop]
        omega),
      List.take_append_drop]

theorem mem_of_mem_slice {α : Type} {r : α} {xs : List α} {a b : Nat}
    (h : r ∈ (xs.drop a).take b) : r ∈ xs :=
  List.mem_of_mem_drop (List.mem_of_mem_take h)

theorem process_file_chunk_slice (cfg : Config) (rows : List Row) (start cs : Nat)
    (hcs : cs ≠ 0) :
    process_file_chunk cfg rows start (some cs) =
      processChunkAux cfg ((rows.drop start).take cs) [] 0 := by
  simp only [process_file_chunk, if_neg hcs]

theorem mergeChunks_ok (cfg : Config) (rows : List Row) (cs : Nat) (hcs : cs ≠ 0)
    (hnf : ∀ r ∈ rows, isErrB (rowStep cfg r) = false) :
    ∀ (is : List Nat) (t0 : Table) (n0 : Nat),
      mergeChunks cfg rows cs is t0 n0 = .ok
        (List.foldl mergeInto t0
          (is.map (fun i => chunkTable cfg ((rows.drop (i * cs)).take cs))),
         n0 + (is.map
          (fun i => (acceptedRecs cfg ((rows.drop (i * cs)).take cs)).length)).sum) := by
  intro is
  induction is with
  | nil => intro t0 n0; simp [mergeChunks]
  | cons i rest ih =>
    intro t0 n0
    simp only [mergeChunks]
    have hnfs : ∀ r ∈ (rows.drop (i * cs)).take cs, isErrB (rowStep cfg r) = false :=
      fun r hr => hnf r (mem_of_mem_slice hr)
    rw [process_file_chunk_slice cfg rows (i * cs) cs hcs,
      processChunkAux_ok cfg _ [] 0 hnfs]
    show mergeChunks cfg rows cs rest
        (mergeInto t0 (buildOn [] (acceptedRecs cfg ((rows.drop (i * cs)).take cs))))
        (n0 + (0 + (acceptedRecs cfg ((rows.drop (i * cs)).take cs)).length)) = _
    rw [ih (mergeInto t0 (buildOn [] (acceptedRecs cfg ((rows.drop (i * cs)).take cs))))
      (n0 + (0 + (acceptedRecs cfg ((rows.drop (i * cs)).take cs)).length))]
    simp only [List.map_cons, List.foldl_cons, List.sum_cons, chunkTable]
    simp only [Except.ok.injEq, Prod.mk.injEq, true_and]
    omega

theorem le_mul_chunkSize (L N : Nat) (hN : 1 ≤ N) : L ≤ N * chunkSize L N := by
  have h := Nat.div_add_mod (L + N - 1) N
  have hm : (L + N - 1) % N < N := Nat.mod_lt _ (by omega)
  unfold chunkSize
  generalize hQ : N * ((L + N - 1) / N) = Q at h ⊢
  omega

/-- Claim C1: merge is order-independent and partition-independent — for
every fixed row sequence and every contiguous partition of it, each
partition processes successfully into its private table, and folding
those tables together with the element-wise merge in any order (any
permutation `ts` of the partial tables, a key absent from a table
counting as the zero vector via `lookupZ`) yields a table extensionally
equal to the one from processing the whole input as one partition; the
intra-file chunked path `process_file_parallel` likewise agrees for
every positive worker count. -/
theorem claim_C1_merge_independence (cfg : Config) (pieces : List (List Row))
    (t : Table) (n : Nat)
    (h : process_file_chunk cfg pieces.flatten 0 none = .ok (t, n))
    (ts : List Table) (hperm : ts.Perm (pieces.map (chunkTable cfg))) :
    (∀ p ∈ pieces, process_file_chunk cfg p 0 none =
        .ok (chunkTable cfg p, (acceptedRecs cfg p).length)) ∧
    (∀ k, lookupZ (ts.foldl mergeInto []) k = lookupZ t k) ∧
    (∀ N, 1 ≤ N → ∀ res, process_file_parallel cfg pieces.flatten N = .ok res →
        ∀ k, lookupZ res.1 k = lookupZ t k) := by
  have hnf : ∀ r ∈ pieces.flatten, isErrB (rowStep cfg r) = false :=
    processChunkAux_noFatal cfg pieces.flatten [] 0 (t, n) h
  have hok := process_file_chunk_ok cfg pieces.flatten hnf
  rw [h] at hok
  simp only [Except.ok.injEq, Prod.mk.injEq] at hok
  obtain ⟨ht, hn⟩ := hok
  have hwhole : ∀ k, lookupZ t k = keySum (acceptedRecs cfg pieces.flatten) k := by
    intro k
    rw [ht, lookupZ_chunkTable]
  refine ⟨?_, ?_, ?_⟩
  · intro p hp
    exact process_file_chunk_ok cfg p
      (fun r hr => hnf r (List.mem_flatten.mpr ⟨p, hp, hr⟩))
  · intro k
    rw [lookupZ_foldl_mergeInto, lookupZ_nil, zero_add,
      (hperm.map (fun p => keySum p k)).sum_eq, List.map_map]
    have hcongr : pieces.map ((fun p => keySum p k) ∘ chunkTable cfg) =
        pieces.map (fun p => keySum (acceptedRecs cfg p) k) := by
      apply List.map_congr_left
      intro p _
      simp only [Function.comp_apply]
      rw [keySum_eq_lookupZ (keysNodup_chunkTable cfg p), lookupZ_chunkTable]
    rw [hcongr, keySum_acceptedRecs_flatten, hwhole k]
  · intro N hN res hres k
    obtain ⟨rt, rn⟩ := res
    show lookupZ rt k = lookupZ t k
    by_cases h0 : pieces.flatten.length = 0
    · simp only [process_file_parallel, if_pos h0, Except.ok.injEq,
        Prod.mk.injEq] at hres
      have hnil : pieces.flatten = [] := List.eq_nil_of_length_eq_zero h0
      rw [← hres.1, hwhole k, hnil]
      rfl
    · by_cases h1 : pieces.flatten.length < 100000 ∨ N = 1
      · simp only [process_file_parallel, if_neg h0, if_pos h1] at hres
        rw [h] at hres
        simp only [Except.ok.injEq, Prod.mk.injEq] at hres
        rw [← hres.1]
      · simp only [process_file_parallel, if_neg h0, if_neg h1] at hres
        push_neg at h1
        have hle := le_mul_chunkSize pieces.flatten.length N (by omega)
        have hcs : chunkSize pieces.flatten.length N ≠ 0 := by
          intro h'
          rw [h', Nat.mul_zero] at hle
          omega
        rw [mergeChunks_ok cfg pieces.flatten _ hcs hnf (List.range N) [] 0] at hres
        simp only [Except.ok.injEq, Prod.mk.injEq] at hres
        rw [← hres.1]
        rw [lookupZ_foldl_mergeInto, lookupZ_nil, zero_add, List.map_map]
        have hcongr2 : (List.range N).map
            ((fun p => keySum p k) ∘
              (fun i => chunkTable cfg ((pieces.flatten.drop
                (i * chunkSize pieces.flatten.length N)).take
                  (chunkSize pieces.flatten.length N)))) =
            (List.range N).map
              (fun i => keySum (acceptedRecs cfg ((pieces.flatten.drop
                (i * chunkSize pieces.flatten.length N)).take
                  (chunkSize pieces.flatten.length N))) k) := by
          apply List.map_congr_left
          intro i _
          simp only [Function.comp_apply]
          rw [keySum_eq_lookupZ (keysNodup_chunkTable cfg _), lookupZ_chunkTable]
        rw [hcongr2]
        have hmaps : (List.range N).map
            (fun i => keySum (acceptedRecs cfg ((pieces.flatten.drop
              (i * chunkSize pieces.flatten.length N)).take
                (chunkSize pieces.flatten.length N))) k) =
            ((List.range N).map
              (fun i => (pieces.flatten.drop
                (i * chunkSize pieces.flatten.length N)).take
                  (chunkSize pieces.flatten.length N))).map
              (fun p => keySum (acceptedRecs cfg p) k) := by
          rw [List.map_map]
          rfl
        rw [hmaps, keySum_acceptedRecs_flatten,
          join_chunks (chunkSize pieces.flatten.length N) N pieces.flatten hle,
          hwhole k]

theorem claim_C1_merge_independence_witness :
    lookupZ
        (List.foldl mergeInto []
          [chunkTable
              ⟨⟨2025, 1, 1, 0, 0, 0⟩, ⟨2025, 1, 2, 0, 0, 0⟩, "1day", ["user"], none, none⟩
              [["2025-01-01 11:00:00", "alice", "appA",
                "1", "1", "1", "1", "1", "1", "1", "1", "1"]],
           chunkTable
              ⟨⟨2025, 1, 1, 0, 0, 0⟩, ⟨2025, 1, 2, 0, 0, 0⟩, "1day", ["user"], none, none⟩
              [["2025-01-01 10:00:00", "alice", "appA",
                "1", "2", "3", "4", "5", "6", "7", "8", "9"]]])
        ["2025-01-01 00:00:00", "alice"] =
      lookupZ [(["2025-01-01 00:00:00", "alice"], ⟨2, 3, 4, 5, 6, 7, 8, 9, 10⟩)]
        ["2025-01-01 00:00:00", "alice"] :=
  (claim_C1_merge_independence
    ⟨⟨2025, 1, 1, 0, 0, 0⟩, ⟨2025, 1, 2, 0, 0, 0⟩, "1day", ["user"], none, none⟩
    [[["2025-01-01 10:00:00", "alice", "appA",
        "1", "2", "3", "4", "5", "6", "7", "8", "9"]],
     [["2025-01-01 11:00:00", "alice", "appA",
        "1", "1", "1", "1", "1", "1", "1", "1", "1"]]]
    [(["2025-01-01 00:00:00", "alice"], ⟨2, 3, 4, 5, 6, 7, 8, 9, 10⟩)] 2
    (by decide) _ (List.Perm.swap _ _ [])).2.1
    ["2025-01-01 00:00:00", "alice"]

theorem countP_range_eq_one (p : Nat → Bool) :
    ∀ (N i0 : Nat), i0 < N → p i0 = true → (∀ i, i < N → p i = true → i = i0) →
      (List.range N).countP p = 1 := by
  intro N
  induction N with
  | zero => intro i0 h; cases h
  | succ N ih =>
    intro i0 hi0 hp huniq
    rw [List.range_succ, List.countP_append]
    by_cases hcase : i0 = N
    · have hz : (List.range N).countP p = 0 := by
        rw [List.countP_eq_zero]
        intro i hi hpi
        have hiN := List.mem_range.mp hi
        have := huniq i (Nat.lt_succ_of_lt hiN) hpi
        omega
      rw [hz]
      have hpN : p N = true := by
        rw [← hcase]
        exact hp
      simp [hpN]
    · have hi0N : i0 < N := by
        rcases Nat.lt_succ_iff_lt_or_eq.mp hi0 with h | h
        · exact h
        · exact absurd h hcase
      have h1 : (List.range N).countP p = 1 :=
        ih i0 hi0N hp (fun i hi hpi => huniq i (Nat.lt_succ_of_lt hi) hpi)
      have hpN : p N = false := by
        rw [Bool.eq_false_iff]
        intro hpN
        exact hcase ((huniq N (Nat.lt_succ_self N) hpN).symm)
      rw [h1]
      simp [hpN]

/-- Claim C2: chunk coverage — for every line count at or above the
100000-line threshold and every worker count of at least 2, the chunks
`[i * chunkSize, i * chunkSize + chunkSize)` cover every line index
`j < L` exactly once (no gap, no overlap, no duplicate), and the
concatenation of the chunk slices of any `L`-row file is the whole
file again. -/
theorem claim_C2_chunk_coverage (L N : Nat) (hL : 100000 ≤ L) (hN : 2 ≤ N) :
    (∀ j, j < L →
      (List.range N).countP
        (fun i => decide (chunkStart L N i ≤ j ∧
          j < chunkStart L N i + chunkSize L N)) = 1) ∧
    (∀ rows : List Row, rows.length = L →
      ((List.range N).map
        (fun i => (rows.drop (chunkStart L N i)).take (chunkSize L N))).flatten = rows) := by
  have hle := le_mul_chunkSize L N (by omega)
  have hcs : 0 < chunkSize L N := by
    rcases Nat.eq_zero_or_pos (chunkSize L N) with h | h
    · rw [h, Nat.mul_zero] at hle
      omega
    · exact h
  constructor
  · intro j hj
    apply countP_range_eq_one _ N (j / chunkSize L N)
    · rw [Nat.div_lt_iff_lt_mul hcs]
      calc j < L := hj
        _ ≤ N * chunkSize L N := hle
        _ = N * chunkSize L N := rfl
    · rw [decide_eq_true_iff]
      constructor
      · exact Nat.div_mul_le_self j (chunkSize L N)
      · have h1 := Nat.div_add_mod j (chunkSize L N)
        have h2 := Nat.mod_lt j hcs
        unfold chunkStart
        generalize hQ : chunkSize L N * (j / chunkSize L N) = Q at h1
        have hQ2 : j / chunkSize L N * chunkSize L N = Q := by
          rw [← hQ]; ring
        rw [hQ2]
        omega
    · intro i hi hpi
      rw [decide_eq_true_iff] at hpi
      unfold chunkStart at hpi
      have h1 : i * chunkSize L N ≤ j := hpi.1
      have h2 : j < (i + 1) * chunkSize L N := by
        have : (i + 1) * chunkSize L N = i * chunkSize L N + chunkSize L N := by ring
        omega
      have hlow : i ≤ j / chunkSize L N := by
        rw [Nat.le_div_iff_mul_le hcs]
        exact h1
      have hhigh : j / chunkSize L N < i + 1 := by
        rw [Nat.div_lt_iff_lt_mul hcs]
        calc j < (i + 1) * chunkSize L N := h2
          _ = (i + 1) * chunkSize L N := rfl
      omega
  · intro rows hlen
    have hjoin := join_chunks (chunkSize L N) N rows (by rw [hlen]; exact hle)
    exact hjoin

theorem claim_C2_chunk_coverage_witness :
    (List.range 4).countP
      (fun i => decide (chunkStart 100000 4 i ≤ 31415 ∧
        31415 < chunkStart 100000 4 i + chunkSize 100000 4)) = 1 :=
  (claim_C2_chunk_coverage 100000 4 (by decide) (by decide)).1 31415 (by decide)

theorem chunkLen_slice (rows : List Row) (N i : Nat) :
    ((rows.drop (chunkStart rows.length N i)).take (chunkSize rows.length N)).length =
      chunkLen rows.length N i := by
  rw [List.length_take, List.length_drop]
  rfl

/-- Counterexample to claim C3 as stated: at `L = 100000`, `N = 70000`
(both within the claim's stated bounds `L >= 100000`, `N >= 2`) the
chunk budget is `ceil(L/N) = 2`, so all lines are exhausted after the
first 50000 chunks and chunk 50000 — one of the "first N-1" chunks —
processes 0 lines, not `ceil(L/N)` lines. -/
theorem claim_C3_counterexample :
    ¬ (∀ i, i < 70000 - 1 → chunkLen 100000 70000 i = chunkSize 100000 70000) := by
  intro hcl
  have h := hcl 50000 (by decide)
  exact absurd h (by decide)

/-- Claim C3 as amended: under the additional fit condition
`(N-1) * ceil(L/N) <= L` (automatic for all realistic worker counts,
e.g. whenever N*N <= L, but violated for degenerate huge N as in the
counterexample) the planner's N chunks satisfy: each of the first N-1
chunks processes exactly `ceil(L/N)` lines and the last chunk processes
the remaining `L - (N-1) * ceil(L/N)` lines. -/
theorem claim_C3_amended (L N : Nat) (hL : 100000 ≤ L) (hN : 2 ≤ N)
    (hfit : (N - 1) * chunkSize L N ≤ L) :
    (∀ i, i < N - 1 → chunkLen L N i = chunkSize L N) ∧
    chunkLen L N (N - 1) = L - (N - 1) * chunkSize L N := by
  have hle := le_mul_chunkSize L N (by omega)
  constructor
  · intro i hi
    have h1 : (i + 1) * chunkSize L N ≤ (N - 1) * chunkSize L N :=
      Nat.mul_le_mul_right _ (by omega)
    have h2 : (i + 1) * chunkSize L N = i * chunkSize L N + chunkSize L N := by ring
    unfold chunkLen chunkStart
    omega
  · have h3 : N * chunkSize L N = (N - 1) * chunkSize L N + chunkSize L N := by
      cases N with
      | zero => omega
      | succ M =>
        simp only [Nat.succ_sub_one]
        ring
    unfold chunkLen chunkStart
    omega

theorem claim_C3_amended_witness :
    chunkLen 100000 4 (4 - 1) = 100000 - (4 - 1) * chunkSize 100000 4 :=
  (claim_C3_amended 100000 4 (by decide) (by decide) (by decide)).2

theorem PDateTime.toList_inj {a b : PDateTime} (h : a.toList = b.toList) : a = b := by
  cases a
  cases b
  simp only [PDateTime.toList, List.cons.injEq, and_true] at h
  simp only [PDateTime.mk.injEq]
  tauto

theorem dtLtB_false_iff (a b : PDateTime) :
    dtLtB a b = false ↔ dtLeB b a = true := by
  constructor
  · intro h
    cases hc : dtLtB b a with
    | true => simp [dtLeB, hc]
    | false =>
      have : b = a := PDateTime.toList_inj (lexLtB_total hc h)
      simp [dtLeB, this]
  · intro h
    rcases Bool.or_eq_true_iff.mp h with h2 | h2
    · exact lexLtB_asymm h2
    · have : b = a := of_decide_eq_true h2
      subst this
      exact lexLtB_irrefl _

/-- Claim C5: the time window is half-open — a record is accepted by the
time filter (`timeReject` is false) iff `from <= timestamp` and
`timestamp < to` in the chronological order on datetimes; in particular
a record with timestamp exactly `to` is always rejected, and one with
timestamp exactly `from` is accepted whenever the window is nonempty. -/
theorem claim_C5_half_open_window (from_dt to_dt ts : PDateTime) :
    (timeReject from_dt to_dt ts = false ↔
      (dtLeB from_dt ts = true ∧ dtLtB ts to_dt = true)) ∧
    timeReject from_dt to_dt to_dt = true ∧
    (dtLtB from_dt to_dt = true → timeReject from_dt to_dt from_dt = false) := by
  refine ⟨?_, ?_, ?_⟩
  · unfold timeReject
    rw [Bool.or_eq_false_iff, Bool.not_eq_false']
    rw [dtLtB_false_iff]
  · unfold timeReject
    have : dtLtB to_dt to_dt = false := lexLtB_irrefl _
    rw [this]
    simp
  · intro h
    unfold timeReject
    have : dtLtB from_dt from_dt = false := lexLtB_irrefl _
    rw [this, h]
    simp

theorem claim_C5_half_open_window_witness :
    timeReject ⟨2025, 1, 1, 0, 0, 0⟩ ⟨2025, 3, 31, 23, 59, 59⟩ ⟨2025, 1, 1, 0, 0, 0⟩ =
      false :=
  (claim_C5_half_open_window ⟨2025, 1, 1, 0, 0, 0⟩ ⟨2025, 3, 31, 23, 59, 59⟩
    ⟨2025, 1, 1, 0, 0, 0⟩).2.2 (by decide)

/-- Counterexample to claim C4 as stated: a 12-field line whose metric
field 3 is the malformed "x" but whose (parseable) timestamp lies
outside the window is silently dropped (`.ok none`), not an error —
the metric fields of a line are never reached once an earlier check
rejects it, so "a line containing a malformed metric field raises an
error" is false as a statement about every input line. -/
theorem claim_C4_counterexample :
    rowStep ⟨⟨2025, 1, 2, 0, 0, 0⟩, ⟨2025, 1, 3, 0, 0, 0⟩, "30m", ["user"], none, none⟩
        ["2025-01-01 12:00:00", "u", "a", "x", "1", "1", "1", "1", "1", "1", "1", "1"] =
      .ok none ∧
    parse_metrics
        ["2025-01-01 12:00:00", "u", "a", "x", "1", "1", "1", "1", "1", "1", "1", "1"] =
      none :=
  ⟨by decide, by decide⟩

/-- Claim C4 as amended: a line with fewer than 12 fields is silently
dropped; a line whose timestamp does not parse is silently dropped
(whatever its other fields hold); and a line that passes the
field-count, filter, timestamp and window checks but has a malformed
metric field makes the worker raise (`.error`), it is not silently
dropped.  (A malformed metric on a line that an earlier check already
rejected is dropped with that line, as the counterexample shows.) -/
theorem claim_C4_amended (cfg : Config) (r : Row) :
    (r.length < 12 → rowStep cfg r = .ok none) ∧
    (parse_datetime (r.getD 0 "") = none → rowStep cfg r = .ok none) ∧
    (passesFilters cfg r = true → parse_metrics r = none → rowStep cfg r = .error ()) := by
  refine ⟨?_, ?_, ?_⟩
  · intro h
    simp only [rowStep, if_pos h]
  · intro h
    simp only [rowStep]
    split_ifs with h1 h2 h3
    · rfl
    · rfl
    · rfl
    · rw [h]
  · intro hp hm
    simp only [passesFilters] at hp
    simp only [rowStep]
    split_ifs at hp ⊢ with h1 h2 h3
    cases hts : parse_datetime (r.getD 0 "") with
    | none =>
      simp only [hts] at hp
      cases hp
    | some d =>
      simp only [hts, Bool.not_eq_true'] at hp
      simp only [hts, hp, Bool.false_eq_true, if_false]
      cases hps : get_period_start d cfg.granularity with
      | error e =>
        cases e
        simp only [hps]
      | ok p =>
        simp only [hps, hm]

theorem claim_C4_amended_witness :
    rowStep ⟨⟨2025, 1, 1, 0, 0, 0⟩, ⟨2025, 1, 2, 0, 0, 0⟩, "30m", ["user"], none, none⟩
        ["2025-01-01 10:00:00", "u", "a", "x", "1", "1", "1", "1", "1", "1", "1", "1"] =
      .error () :=
  (claim_C4_amended
    ⟨⟨2025, 1, 1, 0, 0, 0⟩, ⟨2025, 1, 2, 0, 0, 0⟩, "30m", ["user"], none, none⟩
    ["2025-01-01 10:00:00", "u", "a", "x", "1", "1", "1", "1", "1", "1", "1", "1"]).2.2
    (by decide) (by decide)

theorem processChunkAux_congr (cfg cfg' : Config)
    (h : ∀ r, rowStep cfg r = rowStep cfg' r) :
    ∀ (rows : List Row) (t : Table) (n : Nat),
      processChunkAux cfg rows t n = processChunkAux cfg' rows t n := by
  intro rows
  induction rows with
  | nil => intro t n; rfl
  | cons r rs ih =>
    intro t n
    simp only [processChunkAux, h r]
    cases rowStep cfg' r with
    | error e => rfl
    | ok o =>
      cases o with
      | none => exact ih t n
      | some km => exact ih _ _

/-- Claim C10: an empty filter collection disables filtering rather than
rejecting everything — running the worker with `user_filter = some []`
(or `app_filter = some []`) produces exactly the same result as running
it with no filter at all, on every chunk of every input, because the
falsy empty collection is mapped to `None` before membership testing. -/
theorem claim_C10_empty_filter_is_no_filter (from_dt to_dt : PDateTime)
    (gran : String) (dims : List String) (uf af : Option (List String))
    (rows : List Row) (start : Nat) (size : Option Nat) :
    process_file_chunk ⟨from_dt, to_dt, gran, dims, some [], af⟩ rows start size =
      process_file_chunk ⟨from_dt, to_dt, gran, dims, none, af⟩ rows start size ∧
    process_file_chunk ⟨from_dt, to_dt, gran, dims, uf, some []⟩ rows start size =
      process_file_chunk ⟨from_dt, to_dt, gran, dims, uf, none⟩ rows start size := by
  constructor
  · exact processChunkAux_congr
      ⟨from_dt, to_dt, gran, dims, some [], af⟩
      ⟨from_dt, to_dt, gran, dims, none, af⟩
      (fun r => rfl) _ [] 0
  · exact processChunkAux_congr
      ⟨from_dt, to_dt, gran, dims, uf, some []⟩
      ⟨from_dt, to_dt, gran, dims, uf, none⟩
      (fun r => rfl) _ [] 0

theorem accRec_isSome_eq_passesFilters (cfg : Config) (r : Row)
    (h : isErrB (rowStep cfg r) = false) :
    (accRec cfg r).isSome = passesFilters cfg r := by
  simp only [accRec, passesFilters, rowStep] at h ⊢
  split_ifs at h ⊢ with h1 h2 h3
  · rfl
  · rfl
  · rfl
  · cases hts : parse_datetime (r.getD 0 "") with
    | none => simp [hts]
    | some d =>
      simp only [hts] at h ⊢
      by_cases htr : timeReject cfg.from_dt cfg.to_dt d = true
      · simp [htr]
      · simp only [Bool.not_eq_true] at htr
        simp only [htr, Bool.false_eq_true, if_false] at h ⊢
        cases hps : get_period_start d cfg.granularity with
        | error e =>
          simp only [hps, isErrB] at h
          cases h
        | ok p =>
          simp only [hps] at h ⊢
          cases hm : parse_metrics r with
          | none =>
            simp only [hm, isErrB] at h
            cases h
          | some m => simp [hm]

theorem length_filterMap_eq_countP {α β : Type} (f : α → Option β) (l : List α) :
    (l.filterMap f).length = l.countP (fun a => (f a).isSome) := by
  induction l with
  | nil => rfl
  | cons a l ih =>
    cases hf : f a with
    | none => simp [List.filterMap_cons, hf, List.countP_cons, ih]
    | some b => simp [List.filterMap_cons, hf, List.countP_cons, ih]

theorem countP_congr_mem {α : Type} (p q : α → Bool) (l : List α)
    (h : ∀ a ∈ l, p a = q a) : l.countP p = l.countP q := by
  induction l with
  | nil => rfl
  | cons a l ih =>
    simp only [List.countP_cons, h a (List.mem_cons_self a l),
      ih (fun b hb => h b (List.mem_cons_of_mem _ hb))]

theorem sum_map_add_nat {α : Type} (f g : α → Nat) (l : List α) :
    (l.map (fun a => f a + g a)).sum = (l.map f).sum + (l.map g).sum := by
  induction l with
  | nil => rfl
  | cons a l ih =>
    simp only [List.map_cons, List.sum_cons, ih]
    omega

theorem sum_indicator_nodup (ks : List Key) (k : Key) (hk : k ∈ ks) (hnd : ks.Nodup) :
    (ks.map (fun k' => if k' = k then 1 else 0)).sum = 1 := by
  induction ks with
  | nil => cases hk
  | cons k0 ks ih =>
    simp only [List.nodup_cons] at hnd
    simp only [List.map_cons, List.sum_cons]
    by_cases h0 : k0 = k
    · rw [if_pos h0]
      have hz : (ks.map (fun k' => if k' = k then 1 else 0)).sum = 0 := by
        rw [List.sum_eq_zero]
        intro x hx
        rcases List.mem_map.mp hx with ⟨k', hk', hxe⟩
        have hne : ¬(k' = k) := by
          intro he
          apply hnd.1
          rw [h0, ← he]
          exact hk'
        rw [if_neg hne] at hxe
        exact hxe.symm
      rw [hz]
    · rw [if_neg h0]
      rcases List.mem_cons.mp hk with he | hm
      · exact absurd he.symm h0
      · rw [ih hm hnd.2]

theorem sum_counts (recs : List (Key × MetricVector)) :
    ∀ ks : List Key, ks.Nodup → (∀ km ∈ recs, km.1 ∈ ks) →
      (ks.map (fun k => recs.countP (fun km => decide (km.1 = k)))).sum = recs.length := by
  induction recs with
  | nil =>
    intro ks _ _
    rw [List.sum_eq_zero]
    · rfl
    · intro x hx
      rcases List.mem_map.mp hx with ⟨k, _, hxe⟩
      rw [List.countP_nil] at hxe
      exact hxe.symm
  | cons km recs ih =>
    intro ks hnd hmem
    have hsplit : ks.map (fun k => (km :: recs).countP (fun km' => decide (km'.1 = k))) =
        ks.map (fun k => recs.countP (fun km' => decide (km'.1 = k)) +
          (if k = km.1 then 1 else 0)) := by
      apply List.map_congr_left
      intro k _
      rw [List.countP_cons]
      congr 1
      by_cases he : km.1 = k
      · rw [if_pos (by simp [he]), if_pos he.symm]
      · rw [if_neg (by simp [he]), if_neg (fun h2 => he h2.symm)]
    rw [hsplit, sum_map_add_nat]
    have h1 := ih ks hnd (fun km' h' => hmem km' (List.mem_cons_of_mem _ h'))
    rw [h1]
    have h2 : (ks.map (fun k => if k = km.1 then 1 else 0)).sum = 1 :=
      sum_indicator_nodup ks km.1 (hmem km (List.mem_cons_self _ _)) hnd
    rw [h2]
    simp

/-- Claim C9: `rows_processed` (the engine's rowsMatched) is a
post-filter count — on a successful run it equals exactly the number of
rows passing the field-count, user-filter, app-filter and time-window
checks (not the number of lines scanned), and it equals the sum over
the final table's keys of each key's accepted-record multiplicity. -/
theorem claim_C9_rowsMatched_post_filter (cfg : Config) (rows : List Row)
    (t : Table) (n : Nat)
    (h : process_file_chunk cfg rows 0 none = .ok (t, n)) :
    n = rows.countP (passesFilters cfg) ∧
    (t.map (fun e => (acceptedRecs cfg rows).countP
      (fun km => decide (km.1 = e.1)))).sum = n := by
  have hnf : ∀ r ∈ rows, isErrB (rowStep cfg r) = false :=
    processChunkAux_noFatal cfg rows [] 0 (t, n) h
  have hok := process_file_chunk_ok cfg rows hnf
  rw [h] at hok
  simp only [Except.ok.injEq, Prod.mk.injEq] at hok
  obtain ⟨ht, hn⟩ := hok
  constructor
  · rw [hn, acceptedRecs, length_filterMap_eq_countP]
    exact countP_congr_mem _ _ rows
      (fun r hr => accRec_isSome_eq_passesFilters cfg r (hnf r hr))
  · rw [ht]
    have hmm : (chunkTable cfg rows).map
        (fun e => (acceptedRecs cfg rows).countP (fun km => decide (km.1 = e.1))) =
        ((chunkTable cfg rows).map Prod.fst).map
          (fun k => (acceptedRecs cfg rows).countP (fun km => decide (km.1 = k))) := by
      rw [List.map_map]
      rfl
    rw [hmm, sum_counts (acceptedRecs cfg rows) _ (keysNodup_chunkTable cfg rows)
      ?memks, hn]
    case memks =>
      intro km hkm
      rw [chunkTable, mem_keys_buildOn]
      exact Or.inr ⟨km, hkm, rfl⟩

theorem claim_C9_rowsMatched_post_filter_witness :
    1 = List.countP
        (passesFilters
          ⟨⟨2025, 1, 1, 0, 0, 0⟩, ⟨2025, 1, 2, 0, 0, 0⟩, "1day", ["user"], none, none⟩)
        [["2025-01-01 10:00:00", "alice", "appA",
          "1", "2", "3", "4", "5", "6", "7", "8", "9"],
         ["not a timestamp", "bob", "appB",
          "1", "2", "3", "4", "5", "6", "7", "8", "9"]] :=
  (claim_C9_rowsMatched_post_filter
    ⟨⟨2025, 1, 1, 0, 0, 0⟩, ⟨2025, 1, 2, 0, 0, 0⟩, "1day", ["user"], none, none⟩
    [["2025-01-01 10:00:00", "alice", "appA",
      "1", "2", "3", "4", "5", "6", "7", "8", "9"],
     ["not a timestamp", "bob", "appB",
      "1", "2", "3", "4", "5", "6", "7", "8", "9"]]
    [(["2025-01-01 00:00:00", "alice"], ⟨1, 2, 3, 4, 5, 6, 7, 8, 9⟩)] 1
    (by decide)).1

theorem rowStep_ok_none_of_not_passes (cfg : Config) (r : Row)
    (hp : passesFilters cfg r = false) : rowStep cfg r = .ok none := by
  simp only [passesFilters] at hp
  simp only [rowStep]
  split_ifs at hp ⊢ with h1 h2 h3
  · rfl
  · rfl
  · rfl
  · cases hts : parse_datetime (r.getD 0 "") with
    | none => simp [hts]
    | some d =>
      simp only [hts, Bool.not_eq_false'] at hp
      simp only [hts, hp, if_true]

theorem rowStep_error_of_passes_invalid_gran (cfg : Config) (r : Row)
    (hp : passesFilters cfg r = true) (hg1 : cfg.granularity ≠ "30m")
    (hg2 : cfg.granularity ≠ "1day") : rowStep cfg r = .error () := by
  simp only [passesFilters] at hp
  simp only [rowStep]
  split_ifs at hp ⊢ with h1 h2 h3
  cases hts : parse_datetime (r.getD 0 "") with
  | none =>
    simp only [hts] at hp
    cases hp
  | some d =>
    simp only [hts, Bool.not_eq_true'] at hp
    simp only [hts, hp, Bool.false_eq_true, if_false]
    have hps : get_period_start d cfg.granularity = Except.error () := by
      unfold get_period_start
      rw [if_neg hg1, if_neg hg2]
    simp only [hps]

theorem rowStep_invalid_granularity (cfg : Config) (hg1 : cfg.granularity ≠ "30m")
    (hg2 : cfg.granularity ≠ "1day") (r : Row) :
    rowStep cfg r = if passesFilters cfg r then .error () else .ok none := by
  by_cases hp : passesFilters cfg r = true
  · rw [if_pos hp]
    exact rowStep_error_of_passes_invalid_gran cfg r hp hg1 hg2
  · simp only [Bool.not_eq_true] at hp
    rw [hp, if_neg (by simp)]
    exact rowStep_ok_none_of_not_passes cfg r hp

theorem processChunkAux_invalid_granularity (cfg : Config)
    (hg1 : cfg.granularity ≠ "30m") (hg2 : cfg.granularity ≠ "1day") :
    ∀ (rows : List Row) (t : Table) (n : Nat),
      processChunkAux cfg rows t n =
        if rows.any (passesFilters cfg) then .error () else .ok (t, n) := by
  intro rows
  induction rows with
  | nil => intro t n; simp [processChunkAux]
  | cons r rs ih =>
    intro t n
    simp only [processChunkAux, rowStep_invalid_granularity cfg hg1 hg2 r, List.any_cons]
    by_cases hp : passesFilters cfg r = true
    · simp [hp]
    · simp only [Bool.not_eq_true] at hp
      simp [hp, ih]

theorem aggAux_invalid_granularity (cfg : Config) (fs : FileSystem)
    (hg1 : cfg.granularity ≠ "30m") (hg2 : cfg.granularity ≠ "1day") :
    ∀ (ds : List String) (t : Table) (r f : Nat),
      aggAux cfg fs ds t r f =
        if ds.any (fun d =>
            match lookupFile fs (d ++ ".log.csv") with
            | some rows => rows.any (passesFilters cfg)
            | none => false)
        then .error ()
        else .ok (t, r, f + ds.countP (fun d => (lookupFile fs (d ++ ".log.csv")).isSome)) := by
  intro ds
  induction ds with
  | nil => intro t r f; simp [aggAux]
  | cons d ds ih =>
    intro t r f
    simp only [aggAux, List.any_cons, List.countP_cons]
    cases hl : lookupFile fs (d ++ ".log.csv") with
    | none =>
      simp only [ih, Option.isSome_none, Bool.false_eq_true, if_false, Nat.add_zero,
        Bool.false_or]
    | some rows =>
      show (match process_file_chunk cfg rows 0 none with
        | Except.error e => Except.error e
        | Except.ok (pt, pr) => aggAux cfg fs ds (mergeInto t pt) (r + pr) (f + 1)) = _
      rw [show process_file_chunk cfg rows 0 none =
          processChunkAux cfg rows [] 0 from rfl,
        processChunkAux_invalid_granularity cfg hg1 hg2 rows [] 0]
      by_cases hany : rows.any (passesFilters cfg) = true
      · simp [hany]
      · simp only [Bool.not_eq_true] at hany
        simp only [hany, Bool.false_eq_true, if_false, Bool.false_or]
        rw [ih]
        have : mergeInto t [] = t := rfl
        rw [this]
        simp only [Option.isSome_some, if_true, Nat.add_zero]
        by_cases hds : (ds.any (fun d =>
            match lookupFile fs (d ++ ".log.csv") with
            | some rows => rows.any (passesFilters cfg)
            | none => false)) = true
        · simp [hds]
        · simp only [Bool.not_eq_true] at hds
          simp only [hds, Bool.false_eq_true, if_false, Except.ok.injEq, Prod.mk.injEq]
          exact ⟨trivial, trivial, by omega⟩

/-- Counterexample to claim C6 as stated: calling the engine with the
invalid granularity "2h" AND an empty dimension set on a query range
with no matching records returns a normal `.ok` result (the empty
table) — no error is raised, because `get_period_start` only raises
lazily when some record passes the filters, and the engine never
validates the dimension set at all. -/
theorem claim_C6_caller_error_counterexample :
    aggregate_data_parallel []
        ⟨⟨2025, 1, 1, 0, 0, 0⟩, ⟨2025, 1, 1, 0, 0, 0⟩, "2h", [], none, none⟩ =
      .ok ([], 0, 0) ∧
    ("2h" ≠ "30m" ∧ "2h" ≠ "1day") :=
  ⟨by decide, by decide⟩

/-- Claim C6 as amended: with an invalid granularity the engine raises a
propagated error iff at least one record in an existing in-range file
passes the filters (the `ValueError` is raised lazily at the first
accepted record); when no record passes and the queried date range is
nonempty, it returns the empty table normally with no error; an empty
date range (`from_dt.date()` after `to_dt.date()`) aborts with the
executor's `ValueError` irrespective of granularity.  An empty
dimension set is never rejected: the engine runs for every
`dimensions` value, including `[]` (the keys then contain only the
period). -/
theorem claim_C6_amended (fs : FileSystem) (cfg : Config)
    (hg1 : cfg.granularity ≠ "30m") (hg2 : cfg.granularity ≠ "1day") :
    ((∃ d ∈ get_date_range cfg.from_dt cfg.to_dt, ∃ rows,
        lookupFile fs (d ++ ".log.csv") = some rows ∧
          rows.any (passesFilters cfg) = true) →
      aggregate_data_parallel fs cfg = .error ()) ∧
    (get_date_range cfg.from_dt cfg.to_dt ≠ [] →
      (∀ d ∈ get_date_range cfg.from_dt cfg.to_dt, ∀ rows,
        lookupFile fs (d ++ ".log.csv") = some rows →
          rows.any (passesFilters cfg) = false) →
      aggregate_data_parallel fs cfg =
        .ok ([], 0, (get_date_range cfg.from_dt cfg.to_dt).countP
          (fun d => (lookupFile fs (d ++ ".log.csv")).isSome))) ∧
    (get_date_range cfg.from_dt cfg.to_dt = [] →
      aggregate_data_parallel fs cfg = .error ()) := by
  refine ⟨?_, ?_, ?_⟩
  · rintro ⟨d, hd, rows, hrows, hany⟩
    have hne : get_date_range cfg.from_dt cfg.to_dt ≠ [] := by
      intro h0
      rw [h0] at hd
      cases hd
    rw [aggregate_data_parallel, if_neg hne,
      aggAux_invalid_granularity cfg fs hg1 hg2 (get_date_range cfg.from_dt cfg.to_dt) [] 0 0]
    have hcond : ((get_date_range cfg.from_dt cfg.to_dt).any (fun d =>
        match lookupFile fs (d ++ ".log.csv") with
        | some rows => rows.any (passesFilters cfg)
        | none => false)) = true := by
      rw [List.any_eq_true]
      refine ⟨d, hd, ?_⟩
      rw [hrows]
      exact hany
    rw [if_pos hcond]
  · intro hne hnone
    rw [aggregate_data_parallel, if_neg hne,
      aggAux_invalid_granularity cfg fs hg1 hg2 (get_date_range cfg.from_dt cfg.to_dt) [] 0 0]
    have hcond : ((get_date_range cfg.from_dt cfg.to_dt).any (fun d =>
        match lookupFile fs (d ++ ".log.csv") with
        | some rows => rows.any (passesFilters cfg)
        | none => false)) = false := by
      rw [Bool.eq_false_iff]
      intro hany
      rw [List.any_eq_true] at hany
      obtain ⟨d, hd, hmatch⟩ := hany
      cases hl : lookupFile fs (d ++ ".log.csv") with
      | none =>
        simp only [hl] at hmatch
        cases hmatch
      | some rows =>
        simp only [hl] at hmatch
        have := hnone d hd rows hl
        rw [this] at hmatch
        cases hmatch
    rw [hcond]
    simp
  · intro h0
    rw [aggregate_data_parallel, if_pos h0]

theorem claim_C6_amended_witness :
    aggregate_data_parallel
        [("2025-01-01.log.csv",
          [["2025-01-01 10:00:00", "u", "a",
            "1", "1", "1", "1", "1", "1", "1", "1", "1"]])]
        ⟨⟨2025, 1, 1, 0, 0, 0⟩, ⟨2025, 1, 2, 0, 0, 0⟩, "2h", [], none, none⟩ =
      .error () :=
  (claim_C6_amended
    [("2025-01-01.log.csv",
      [["2025-01-01 10:00:00", "u", "a",
        "1", "1", "1", "1", "1", "1", "1", "1", "1"]])]
    ⟨⟨2025, 1, 1, 0, 0, 0⟩, ⟨2025, 1, 2, 0, 0, 0⟩, "2h", [], none, none⟩
    (by decide) (by decide)).1
    ⟨"2025-01-01", by decide,
      [["2025-01-01 10:00:00", "u", "a",
        "1", "1", "1", "1", "1", "1", "1", "1", "1"]],
      by decide, by decide⟩

theorem aggAux_ok (cfg : Config) (fs : FileSystem) :
    ∀ (ds : List String) (t : Table) (r f : Nat),
      (∀ d ∈ ds, ∀ rows, lookupFile fs (d ++ ".log.csv") = some rows →
        ∀ row ∈ rows, isErrB (rowStep cfg row) = false) →
      aggAux cfg fs ds t r f = .ok
        ((ds.filterMap (fun d => lookupFile fs (d ++ ".log.csv"))).foldl
          (fun acc rows => mergeInto acc (chunkTable cfg rows)) t,
         r + (acceptedRecs cfg
           ((ds.filterMap (fun d => lookupFile fs (d ++ ".log.csv"))).flatten)).length,
         f + ds.countP (fun d => (lookupFile fs (d ++ ".log.csv")).isSome)) := by
  intro ds
  induction ds with
  | nil =>
    intro t r f _
    simp [aggAux, acceptedRecs]
  | cons d ds ih =>
    intro t r f h
    simp only [aggAux, List.filterMap_cons, List.countP_cons]
    cases hl : lookupFile fs (d ++ ".log.csv") with
    | none =>
      rw [ih t r f (fun d' hd' => h d' (List.mem_cons_of_mem _ hd'))]
      simp [hl]
    | some rows =>
      have hrows := h d (List.mem_cons_self d ds) rows hl
      show (match process_file_chunk cfg rows 0 none with
        | Except.error e => Except.error e
        | Except.ok (pt, pr) => aggAux cfg fs ds (mergeInto t pt) (r + pr) (f + 1)) = _
      rw [process_file_chunk_ok cfg rows hrows]
      show aggAux cfg fs ds (mergeInto t (chunkTable cfg rows))
        (r + (acceptedRecs cfg rows).length) (f + 1) = _
      rw [ih _ _ _ (fun d' hd' => h d' (List.mem_cons_of_mem _ hd'))]
      simp only [hl, List.foldl_cons, List.flatten_cons, acceptedRecs_append,
        List.length_append, Option.isSome_some, Except.ok.injEq, Prod.mk.injEq]
      refine ⟨trivial, by omega, ?_⟩
      rw [if_pos trivial]
      omega

/-- Claim C7: missing-file tolerance — on a queried date range that is
nonempty (every actual query: `from_dt.date() <= to_dt.date()`; an
empty range crashes the executor before any file is touched, which is
unrelated to missing files), when every row of every existing in-range
file is fatal-error free, the engine returns successfully: a day in
range whose file does not exist contributes zero records and no error,
`filesProcessed` counts only the existing files, and the final table is
exactly the aggregation over the existing files alone (its value at
every key is the metric sum of the accepted records of the existing
files). -/
theorem claim_C7_missing_file_tolerance (fs : FileSystem) (cfg : Config)
    (hne : get_date_range cfg.from_dt cfg.to_dt ≠ [])
    (h : ∀ rows ∈ existingFiles fs cfg, ∀ r ∈ rows, isErrB (rowStep cfg r) = false) :
    aggregate_data_parallel fs cfg = .ok
      (mergeExisting cfg (existingFiles fs cfg),
       (acceptedRecs cfg (existingFiles fs cfg).flatten).length,
       (existingFiles fs cfg).length) ∧
    (∀ k, lookupZ (mergeExisting cfg (existingFiles fs cfg)) k =
      keySum (acceptedRecs cfg (existingFiles fs cfg).flatten) k) := by
  have hh : ∀ d ∈ get_date_range cfg.from_dt cfg.to_dt, ∀ rows,
      lookupFile fs (d ++ ".log.csv") = some rows →
      ∀ row ∈ rows, isErrB (rowStep cfg row) = false := by
    intro d hd rows hl row hrow
    apply h rows _ row hrow
    rw [existingFiles]
    exact List.mem_filterMap.mpr ⟨d, hd, hl⟩
  constructor
  · rw [aggregate_data_parallel, if_neg hne, aggAux_ok cfg fs _ [] 0 0 hh]
    simp only [Nat.zero_add, existingFiles, mergeExisting]
    rw [length_filterMap_eq_countP]
  · intro k
    rw [mergeExisting,
      show (existingFiles fs cfg).foldl
          (fun acc rows => mergeInto acc (chunkTable cfg rows)) [] =
        ((existingFiles fs cfg).map (chunkTable cfg)).foldl mergeInto [] from
        (List.foldl_map _ _ _ _).symm,
      lookupZ_foldl_mergeInto, lookupZ_nil, zero_add, List.map_map]
    have hcongr : (existingFiles fs cfg).map
        ((fun p => keySum p k) ∘ chunkTable cfg) =
        (existingFiles fs cfg).map (fun p => keySum (acceptedRecs cfg p) k) := by
      apply List.map_congr_left
      intro p _
      simp only [Function.comp_apply]
      rw [keySum_eq_lookupZ (keysNodup_chunkTable cfg p), lookupZ_chunkTable]
    rw [hcongr, keySum_acceptedRecs_flatten]

theorem claim_C7_missing_file_tolerance_witness :
    aggregate_data_parallel
        [("2025-01-01.log.csv",
          [["2025-01-01 10:00:00", "alice", "appA",
            "1", "2", "3", "4", "5", "6", "7", "8", "9"]])]
        ⟨⟨2025, 1, 1, 0, 0, 0⟩, ⟨2025, 1, 2, 23, 59, 59⟩, "1day", ["user"], none, none⟩ =
      .ok
        (mergeExisting
          ⟨⟨2025, 1, 1, 0, 0, 0⟩, ⟨2025, 1, 2, 23, 59, 59⟩, "1day", ["user"], none, none⟩
          (existingFiles
            [("2025-01-01.log.csv",
              [["2025-01-01 10:00:00", "alice", "appA",
                "1", "2", "3", "4", "5", "6", "7", "8", "9"]])]
            ⟨⟨2025, 1, 1, 0, 0, 0⟩, ⟨2025, 1, 2, 23, 59, 59⟩, "1day", ["user"], none, none⟩),
         (acceptedRecs
            ⟨⟨2025, 1, 1, 0, 0, 0⟩, ⟨2025, 1, 2, 23, 59, 59⟩, "1day", ["user"], none, none⟩
            (existingFiles
              [("2025-01-01.log.csv",
                [["2025-01-01 10:00:00", "alice", "appA",
                  "1", "2", "3", "4", "5", "6", "7", "8", "9"]])]
              ⟨⟨2025, 1, 1, 0, 0, 0⟩, ⟨2025, 1, 2, 23, 59, 59⟩, "1day", ["user"],
                none, none⟩).flatten).length,
         (existingFiles
            [("2025-01-01.log.csv",
              [["2025-01-01 10:00:00", "alice", "appA",
                "1", "2", "3", "4", "5", "6", "7", "8", "9"]])]
            ⟨⟨2025, 1, 1, 0, 0, 0⟩, ⟨2025, 1, 2, 23, 59, 59⟩, "1day", ["user"],
              none, none⟩).length) :=
  (claim_C7_missing_file_tolerance
    [("2025-01-01.log.csv",
      [["2025-01-01 10:00:00", "alice", "appA",
        "1", "2", "3", "4", "5", "6", "7", "8", "9"]])]
    ⟨⟨2025, 1, 1, 0, 0, 0⟩, ⟨2025, 1, 2, 23, 59, 59⟩, "1day", ["user"], none, none⟩
    (by decide) (by decide)).1

instance : IsTrans Key keyLe where
  trans a b c hab hbc := by
    unfold keyLe at hab hbc ⊢
    rcases Bool.or_eq_true_iff.mp hab with h1 | h1
    · rcases Bool.or_eq_true_iff.mp hbc with h2 | h2
      · rw [lexLtB_trans h1 h2]
        rfl
      · have : b = c := of_decide_eq_true h2
        rw [← this, h1]
        rfl
    · have : a = b := of_decide_eq_true h1
      rw [this]
      exact hbc

instance : IsTotal Key keyLe where
  total a b := by
    unfold keyLe
    cases h1 : lexLtB a b with
    | true => exact Or.inl rfl
    | false =>
      cases h2 : lexLtB b a with
      | true => exact Or.inr rfl
      | false =>
        have : a = b := lexLtB_total h1 h2
        exact Or.inl (by simp [this])

instance : IsAntisymm Key keyLe where
  antisymm a b hab hba := by
    unfold keyLe at hab hba
    rcases Bool.or_eq_true_iff.mp hab with h1 | h1
    · rcases Bool.or_eq_true_iff.mp hba with h2 | h2
      · rw [lexLtB_asymm h1] at h2
        cases h2
      · exact (of_decide_eq_true h2).symm
    · exact of_decide_eq_true h1

/-- Claim C8: emitter order and shape — the emitted sequence is the
header followed by the table's keys sorted ascending in the
lexicographic tuple order, each data row being exactly the key fields
followed by the 9 metric values in metric order; and the output is a
deterministic function of the table's contents alone: two tables with
unique keys that agree as finite maps (same `lookupEntry` at every key,
whatever their internal entry order, e.g. coming from different worker
counts or merge schedules) emit identical row sequences. -/
theorem claim_C8_emitter_sorted_deterministic (t t' : Table) (dims : List String)
    (h : keysNodup t) (h' : keysNodup t')
    (hext : ∀ k, lookupEntry t k = lookupEntry t' k) :
    (∃ ks : List Key, ks.Sorted keyLe ∧ ks.Perm (t.map Prod.fst) ∧
      write_results t dims = resultHeader dims ::
        ks.map (fun k => k ++ metricStrings (lookupZ t k))) ∧
    write_results t dims = write_results t' dims := by
  constructor
  · exact ⟨List.insertionSort keyLe (t.map Prod.fst),
      List.sorted_insertionSort keyLe _, List.perm_insertionSort keyLe _, rfl⟩
  · have hmem : ∀ k : Key, k ∈ t.map Prod.fst ↔ k ∈ t'.map Prod.fst := by
      intro k
      rw [← lookupEntry_isSome_iff, ← lookupEntry_isSome_iff, hext k]
    have hperm : (t.map Prod.fst).Perm (t'.map Prod.fst) :=
      (List.perm_ext_iff_of_nodup h h').mpr hmem
    have hsort : List.insertionSort keyLe (t.map Prod.fst) =
        List.insertionSort keyLe (t'.map Prod.fst) :=
      List.eq_of_perm_of_sorted
        ((List.perm_insertionSort keyLe _).trans
          (hperm.trans (List.perm_insertionSort keyLe _).symm))
        (List.sorted_insertionSort keyLe _) (List.sorted_insertionSort keyLe _)
    rw [write_results, write_results, hsort]
    congr 1
    apply List.map_congr_left
    intro k _
    rw [lookupZ, lookupZ, hext k]

theorem claim_C8_emitter_sorted_deterministic_witness :
    write_results
        [(["2025-01-01 00:00:00", "alice"], ⟨1, 2, 3, 4, 5, 6, 7, 8, 9⟩),
         (["2025-01-01 00:00:00", "bob"], ⟨9, 8, 7, 6, 5, 4, 3, 2, 1⟩)] ["user"] =
      write_results
        [(["2025-01-01 00:00:00", "bob"], ⟨9, 8, 7, 6, 5, 4, 3, 2, 1⟩),
         (["2025-01-01 00:00:00", "alice"], ⟨1, 2, 3, 4, 5, 6, 7, 8, 9⟩)] ["user"] :=
  (claim_C8_emitter_sorted_deterministic
    [(["2025-01-01 00:00:00", "alice"], ⟨1, 2, 3, 4, 5, 6, 7, 8, 9⟩),
     (["2025-01-01 00:00:00", "bob"], ⟨9, 8, 7, 6, 5, 4, 3, 2, 1⟩)]
    [(["2025-01-01 00:00:00", "bob"], ⟨9, 8, 7, 6, 5, 4, 3, 2, 1⟩),
     (["2025-01-01 00:00:00", "alice"], ⟨1, 2, 3, 4, 5, 6, 7, 8, 9⟩)]
    ["user"] (by unfold keysNodup; decide) (by unfold keysNodup; decide)
    (fun k => by
      simp only [lookupEntry]
      by_cases h1 : ["2025-01-01 00:00:00", "alice"] = k
      · rw [if_pos h1, if_neg (by rw [← h1]; decide), if_pos h1]
      · rw [if_neg h1]
        by_cases h2 : ["2025-01-01 00:00:00", "bob"] = k
        · rw [if_pos h2, if_pos h2]
        · rw [if_neg h2, if_neg h2, if_neg h1])).2

example : parse_datetime "2025-01-01 00:47:00" =
    some ⟨2025, 1, 1, 0, 47, 0⟩ := by decide
example : parse_datetime "2025-02-29 00:00:00" = none := by decide
example : parse_datetime "2024-02-29 23:59:59" =
    some ⟨2024, 2, 29, 23, 59, 59⟩ := by decide
example : parse_datetime "2025-13-01 00:00:00" = none := by decide
example : parse_datetime "2025-01-01 00:00:0x" = none := by decide
example : parseInt "42" = some 42 := by decide
example : parseInt " -7 " = some (-7) := by decide
example : parseInt "1_000" = some 1000 := by decide
example : parseInt "abc" = none := by decide
example : parseInt "" = none := by decide
example : get_period_start ⟨2025, 1, 1, 0, 47, 0⟩ "30m" =
    .ok ⟨2025, 1, 1, 0, 30, 0⟩ := by decide
example : get_period_start ⟨2025, 1, 1, 0, 47, 0⟩ "1day" =
    .ok ⟨2025, 1, 1, 0, 0, 0⟩ := by decide
example : get_date_range ⟨2025, 1, 30, 5, 0, 0⟩ ⟨2025, 2, 2, 1, 0, 0⟩ =
    ["2025-01-30", "2025-01-31", "2025-02-01", "2025-02-02"] := by decide
